import Mathlib

/-!
# Verification of the `herb` Othello engine

A shallow embedding of the core of the `herb` Othello/Reversi engine
(`src/othello.rs`, `src/mcts.rs`, `src/lib.rs`, `src/config.rs`,
`src/drmecref.rs`) together with proofs and refutations of the frozen
specification claims.

Modelling conventions:
* `u64` values are `Nat` with explicit truncation `% U64_MOD` wherever the
  source relies on 64-bit wraparound (left shifts); bitwise `&&& ||| ^^^ >>>`
  agree with the machine operations on values below `2^64`.
* Rust's bitwise complement `!x` on `u64` is `x ^^^ U64_ALL_ONES`.
* `f64` statistics (`Node.visits`, `Node.wins`, time fractions, config
  values) are modelled as `ℚ`.  Every arithmetic operation the claims are
  about (adding `1.0`, `0.5`, merging by `+`, multiplying by a table entry)
  is exact dyadic/decimal arithmetic far below the 53-bit mantissa limit,
  so the rational model is bit-faithful for these operations.
* Unbounded `while` loops over a shifting 64-bit mask are written with an
  explicit fuel of `64`; a mask bit moves by at least one position per
  iteration, so 64 iterations always reach the loop's exit condition and
  the fuelled function computes exactly what the source loop computes.
-/

/-- `2^64`, the modulus of `u64` arithmetic. -/
def U64_MOD : Nat := 2 ^ 64

/-- `u64::MAX`, i.e. `2^64 - 1`; used to model the bitwise complement. -/
def U64_ALL_ONES : Nat := U64_MOD - 1

/-- Truncating left shift, modelling `u64` `<<`. -/
def shl64 (x k : Nat) : Nat := (x <<< k) % U64_MOD

/-- Piece colors (`othello.rs` `enum Color`). -/
inductive Color where
  | White : Color
  | Black : Color
deriving DecidableEq, Repr

/-- `othello.rs` `enum GameError`. -/
inductive GameError where
  | InvalidMove : GameError
  | GameOver : GameError
deriving DecidableEq, Repr

/-- `othello.rs` `enum Move`: a position payload (a `u64`) or a pass. -/
inductive Move where
  | move (position : Nat) : Move
  | pass : Move
deriving DecidableEq, Repr

/-- `u64::count_ones`, with fuel 64 (exact for all values below `2^64`). -/
def countOnesAux : Nat → Nat → Nat
  | 0, _ => 0
  | fuel + 1, n => if n = 0 then 0 else n % 2 + countOnesAux fuel (n / 2)

/-- `u64::count_ones` on the `Nat` model. -/
def count_ones (n : Nat) : Nat := countOnesAux 64 n

/-- `u64::trailing_zeros`, with fuel 64; `trailing_zeros 0 = 64` as in Rust. -/
def trailingZerosAux : Nat → Nat → Nat
  | 0, _ => 0
  | fuel + 1, n => if n % 2 = 1 then 0 else 1 + trailingZerosAux fuel (n / 2)

/-- `u64::trailing_zeros` on the `Nat` model. -/
def trailing_zeros (n : Nat) : Nat :=
  if n = 0 then 64 else trailingZerosAux 64 n

namespace Move

/-- `Move::new` (`othello.rs`): rejects a position with more than one set bit. -/
def new (position : Nat) : Except GameError Move :=
  if count_ones position > 1 then .error .InvalidMove
  else .ok (Move.move position)

/-- `Move::from_col_row` (`othello.rs`). -/
def from_col_row (col row : Nat) : Except GameError Move :=
  if col ≤ 7 ∧ row ≤ 7 then .ok (Move.move (shl64 1 (row * 8 + col)))
  else .error .InvalidMove

/-- `Move::get_col`. -/
def get_col : Move → Option Nat
  | Move.move position => some (trailing_zeros position % 8)
  | Move.pass => none

/-- `Move::get_row`. -/
def get_row : Move → Option Nat
  | Move.move position => some (trailing_zeros position / 8)
  | Move.pass => none

/-- `Move::get_position`. -/
def get_position : Move → Option Nat
  | Move.move position => some position
  | Move.pass => none

end Move

/-- `othello.rs` `struct Bitboard`. -/
structure Bitboard where
  black : Nat
  white : Nat
deriving DecidableEq, Repr

/-- `BLACK_INITIAL_POSITIONS`. -/
def BLACK_INITIAL_POSITIONS : Nat := 2 ^ 28 ||| 2 ^ 35

/-- `WHITE_INITIAL_POSITIONS`. -/
def WHITE_INITIAL_POSITIONS : Nat := 2 ^ 27 ||| 2 ^ 36

/-- `Bitboard::new`. -/
def Bitboard.new : Bitboard :=
  { black := BLACK_INITIAL_POSITIONS, white := WHITE_INITIAL_POSITIONS }

/-- `othello.rs` `struct Game`. -/
structure Game where
  current_board : Bitboard
  current_player : Color
  turn : Int
deriving DecidableEq, Repr

/-- `Game::new`. -/
def Game.new : Game :=
  { turn := 0, current_player := .Black, current_board := Bitboard.new }

/-- `Game::get_board`. -/
def Game.get_board (g : Game) : Bitboard := g.current_board

/-- `Game::to_move`. -/
def Game.to_move (g : Game) : Color := g.current_player

/-- `left_edge_mask` (`othello.rs` const fn): bits 0, 8, …, 56. -/
def LEFT_EDGE_MASK : Nat :=
  (List.range 8).foldl (fun result i => result ||| shl64 1 (8 * i)) 0

/-- `right_edge_mask` (`othello.rs` const fn): bits 7, 15, …, 63. -/
def RIGHT_EDGE_MASK : Nat :=
  (List.range 8).foldl (fun result i => result ||| shl64 1 (8 * i + 7)) 0

/-- `DIRECTION_MASKS` (`othello.rs`), indexed 0..7. -/
def DIRECTION_MASKS : Nat → Nat
  | 0 => 0x7F7F7F7F7F7F7F7F
  | 1 => 0x00FFFFFFFFFFFFFF
  | 2 => 0x007F7F7F7F7F7F7F
  | 3 => 0x00FEFEFEFEFEFEFE
  | 4 => 0xFEFEFEFEFEFEFEFE
  | 5 => 0xFFFFFFFFFFFFFF00
  | 6 => 0xFEFEFEFEFEFEFE00
  | 7 => 0x7F7F7F7F7F7F7F00
  | _ => 0

/-- `DIRECTION_OFFSETS` (`othello.rs`), indexed 0..3. -/
def DIRECTION_OFFSETS : Nat → Nat
  | 0 => 1
  | 1 => 8
  | 2 => 9
  | 3 => 7
  | _ => 0

/-- The forward-shift inner `while` loop of `Game::legal_moves`
(`while neighbors != 0 { .. << offset .. }`), with fuel 64: the surviving
bits move up by at least one index per iteration, so 64 iterations always
reach `neighbors == 0`, exactly as the unbounded source loop does. -/
def lmLoopShl (mask off opp empty : Nat) : Nat → Nat → Nat → Nat
  | 0, _, valid => valid
  | fuel + 1, neighbors, valid =>
    if neighbors = 0 then valid
    else
      let potential_flips := shl64 (neighbors &&& mask) off
      lmLoopShl mask off opp empty fuel (potential_flips &&& opp)
        (valid ||| (potential_flips &&& empty))

/-- The backward-shift inner `while` loop of `Game::legal_moves`
(`while neighbors != 0 { .. >> offset .. }`), with fuel 64. -/
def lmLoopShr (mask off opp empty : Nat) : Nat → Nat → Nat → Nat
  | 0, _, valid => valid
  | fuel + 1, neighbors, valid =>
    if neighbors = 0 then valid
    else
      let potential_flips := (neighbors &&& mask) >>> off
      lmLoopShr mask off opp empty fuel (potential_flips &&& opp)
        (valid ||| (potential_flips &&& empty))

/-- The `for i in 0..4` direction loop of `Game::legal_moves`, producing
the `valid_moves` bitmask. -/
def validMovesMask (player_pieces opponent_pieces empty_tiles : Nat) : Nat :=
  (List.range 4).foldl
    (fun valid i =>
      let n1 := shl64 (player_pieces &&& DIRECTION_MASKS i) (DIRECTION_OFFSETS i)
        &&& opponent_pieces
      let valid := lmLoopShl (DIRECTION_MASKS i) (DIRECTION_OFFSETS i)
        opponent_pieces empty_tiles 64 n1 valid
      let n2 := ((player_pieces &&& DIRECTION_MASKS (i + 4)) >>> DIRECTION_OFFSETS i)
        &&& opponent_pieces
      lmLoopShr (DIRECTION_MASKS (i + 4)) (DIRECTION_OFFSETS i)
        opponent_pieces empty_tiles 64 n2 valid)
    0

/-- The materialisation double loop of `Game::legal_moves`: rows then
columns in ascending order, pushing `Move::new(1 << shift)` for every set
bit of `valid_moves`. -/
def movesFromBitmask (valid_moves : Nat) : List Move :=
  (List.range 8).flatMap (fun row =>
    (List.range 8).filterMap (fun col =>
      let shift := row * 8 + col
      let position := shl64 1 shift
      if valid_moves &&& position ≠ 0 then
        match Move.new position with
        | .ok mv => some mv
        | .error _ => none
      else none))

/-- `Game::legal_moves`. -/
def Game.legal_moves (g : Game) : List Move :=
  let pieces := match g.current_player with
    | .Black => (g.current_board.black, g.current_board.white)
    | .White => (g.current_board.white, g.current_board.black)
  let empty_tiles := (g.current_board.black ||| g.current_board.white) ^^^ U64_ALL_ONES
  movesFromBitmask (validMovesMask pieces.1 pieces.2 empty_tiles)

/-- `othello.rs` `enum SearchDirection`. -/
inductive SearchDirection where
  | Up | Down | Left | Right
  | DiagonalDownRight | DiagonalDownLeft | DiagonalUpLeft | DiagonalUpRight
deriving DecidableEq, Repr

/-- One step of the shifting mask in `Game::flip`: `none` models the
`break` at a board edge, `some mask'` the shifted mask (truncated to 64
bits as `u64` shifts are). -/
def flipStep (direction : SearchDirection) (mask : Nat) : Option Nat :=
  match direction with
  | .Right =>
    if mask &&& RIGHT_EDGE_MASK ≠ 0 then none else some (shl64 mask 1)
  | .Left =>
    if mask &&& LEFT_EDGE_MASK ≠ 0 then none else some (mask >>> 1)
  | .Down => some (shl64 mask 8)
  | .Up => some (mask >>> 8)
  | .DiagonalUpRight =>
    if mask &&& RIGHT_EDGE_MASK ≠ 0 then none else some (shl64 mask 9)
  | .DiagonalDownRight =>
    if mask &&& LEFT_EDGE_MASK ≠ 0 then none else some (mask >>> 9)
  | .DiagonalDownLeft =>
    if mask &&& LEFT_EDGE_MASK ≠ 0 then none else some (shl64 mask 7)
  | .DiagonalUpLeft =>
    if mask &&& RIGHT_EDGE_MASK ≠ 0 then none else some (mask >>> 7)

/-- The `loop` of `Game::flip`, with fuel 64 (the single-bit mask moves by
at least one position per iteration, so 64 iterations always reach one of
the source loop's `break`s).  Returns the updated `(own, opponent)` pair;
the `flip` accumulator and the two terminating branches follow the source
line by line. -/
def flipLoop (direction : SearchDirection) :
    Nat → Nat → Nat → Nat → Nat → Nat × Nat
  | 0, own, opponent, _, _ => (own, opponent)
  | fuel + 1, own, opponent, mask, flip =>
    match flipStep direction mask with
    | none => (own, opponent)
    | some mask' =>
      if mask' &&& opponent ≠ 0 then
        flipLoop direction fuel own opponent mask' (flip ||| mask')
      else if mask' &&& own ≠ 0 then
        (own ^^^ flip, opponent ^^^ flip)
      else
        (own, opponent)

/-- `Game::flip` for one direction, as a pure function on the
`(own, opponent)` masks. -/
def flipDir (pos : Nat) (own opponent : Nat) (direction : SearchDirection) :
    Nat × Nat :=
  flipLoop direction 64 own opponent pos 0

/-- The direction array used in `Game::apply_move` (same for both colors). -/
def APPLY_DIRECTIONS : List SearchDirection :=
  [.Left, .Right, .Down, .Up,
   .DiagonalUpRight, .DiagonalDownRight, .DiagonalUpLeft, .DiagonalDownLeft]

/-- The eight `flip` calls of `Game::apply_move`, folded over the
direction array. -/
def applyFlips (position own opponent : Nat) : Nat × Nat :=
  APPLY_DIRECTIONS.foldl (fun acc dir => flipDir position acc.1 acc.2 dir)
    (own, opponent)

/-- `Game::apply_move`: sets the mover's bit and flips in all eight
directions; a `Pass` (no position) leaves the board unchanged. -/
def Game.apply_move (g : Game) (mv : Move) : Game :=
  match mv.get_position with
  | none => g
  | some position =>
    match g.current_player with
    | .Black =>
      let new_black := g.current_board.black ||| position
      let res := applyFlips position new_black g.current_board.white
      { g with current_board := { black := res.1, white := res.2 } }
    | .White =>
      let new_white := g.current_board.white ||| position
      let res := applyFlips position new_white g.current_board.black
      { g with current_board := { black := res.2, white := res.1 } }

/-- The player switch performed at the end of `Game::play_next_turn` and in
the simulated games of `Game::is_over`. -/
def Color.opposite : Color → Color
  | .Black => .White
  | .White => .Black

/-- `Game::is_over`: no legal moves for the current player and none for the
other player either. -/
def Game.is_over (g : Game) : Bool :=
  let current_legal_moves := g.legal_moves
  if ¬ current_legal_moves.isEmpty then false
  else
    let sim_game : Game :=
      { g with turn := g.turn + 1, current_player := g.current_player.opposite }
    let next_player_legal_moves := sim_game.legal_moves
    current_legal_moves.isEmpty && next_player_legal_moves.isEmpty

/-- The turn increment and player switch at the end of
`Game::play_next_turn`. -/
def Game.advanceTurn (g : Game) : Game :=
  { g with turn := g.turn + 1, current_player := g.current_player.opposite }

/-- `Game::play_next_turn`.  An `error` result models the source's early
`return Err(..)`, which leaves the Rust `Game` unchanged. -/
def Game.play_next_turn (g : Game) (mv : Move) : Except GameError Game :=
  if g.is_over then .error .GameOver
  else
    let legal_moves := g.legal_moves
    let step : Except GameError Game :=
      if ¬ legal_moves.isEmpty then
        match mv with
        | .move _ =>
          if mv ∈ legal_moves then .ok (g.apply_move mv)
          else .error .InvalidMove
        | .pass => .ok (g.apply_move mv)
      else .ok g
    step.map Game.advanceTurn

/-- `Game::get_hash`: the union of the two occupancy masks. -/
def Game.get_hash (g : Game) : Nat :=
  g.current_board.black ||| g.current_board.white

/-! ## MCTS (`mcts.rs`), configuration (`config.rs`) -/

/-- `config.rs` `struct MctsConfig`; the `f64` exploration factor is
modelled as `ℚ`. -/
structure MctsConfig where
  exploration_factor : ℚ
deriving DecidableEq, Repr

/-- `MctsConfig::default`: `std::f64::consts::SQRT_2`, whose exact IEEE-754
double value is `6369051672525773 / 2^52`. -/
def MctsConfig.default : MctsConfig :=
  { exploration_factor := (6369051672525773 : ℚ) / 2 ^ 52 }

/-- `mcts.rs` `struct Node`; the `f64` statistics are modelled as `ℚ`
(backpropagation and merging only ever add `1.0`, `0.5` and previously
stored values, which `f64` performs exactly in the ranges involved). -/
structure Node where
  visits : ℚ
  wins : ℚ
deriving DecidableEq, Repr

/-- `Node::new`. -/
def Node.new : Node := { visits := 0, wins := 0 }

/-- `Node::first_visit`. -/
def Node.first_visit (win : Bool) : Node :=
  { visits := 1, wins := if win then 1 else 0 }

/-- `Node::cold_start`. -/
def Node.cold_start : Node := { visits := 1, wins := 1/2 }

namespace Mcts

/-- `mcts.rs` `struct Tree`.  The `HashMap<u64, Node>` is modelled as an
association list with (as in a `HashMap`) at most one entry per key in any
state the code constructs. -/
structure Tree where
  config : MctsConfig
  map : List (Nat × Node)
  search_iterations : Nat
deriving DecidableEq, Repr

/-- `HashMap::get` on the association-list model. -/
def lookupNode (m : List (Nat × Node)) (key : Nat) : Option Node :=
  (m.find? (fun e => e.1 = key)).map (fun e => e.2)

/-- `HashMap::entry(key).and_modify(f).or_insert(ins)` on the model:
modify the entry in place when the key is present, insert otherwise. -/
def adjustOrInsert (m : List (Nat × Node)) (key : Nat) (f : Node → Node)
    (ins : Node) : List (Nat × Node) :=
  match lookupNode m key with
  | some _ => m.map (fun e => if e.1 = key then (e.1, f e.2) else e)
  | none => (key, ins) :: m

/-- `Tree::from_config`. -/
def Tree.from_config (config : MctsConfig) : Tree :=
  { config := config, map := [], search_iterations := 0 }

/-- `Tree::new`: uses the default `MctsConfig`. -/
def Tree.new : Tree := Tree.from_config MctsConfig.default

/-- One entry of `Tree::merge`'s loop over the other tree's map. -/
def mergeStep (m : List (Nat × Node)) (kv : Nat × Node) : List (Nat × Node) :=
  adjustOrInsert m kv.1
    (fun node => { visits := node.visits + kv.2.visits,
                   wins := node.wins + kv.2.wins })
    kv.2

/-- `Tree::merge`: add statistics of common keys, insert the rest, sum the
iteration counters. -/
def Tree.merge (t : Tree) (other : Tree) : Tree :=
  { t with
    map := other.map.foldl mergeStep t.map,
    search_iterations := t.search_iterations + other.search_iterations }

/-- `Tree::contains_key` on the model. -/
def Tree.containsKey (t : Tree) (key : Nat) : Bool :=
  (lookupNode t.map key).isSome

/-- `play_next_turn(mv).unwrap()` as used inside `mcts.rs`: the searched
moves are always drawn from `legal_moves`, for which `play_next_turn`
always returns `Ok`; the (unreachable) panic branch returns the game
unchanged. -/
def stepUnwrap (g : Game) (mv : Move) : Game :=
  match g.play_next_turn mv with
  | .ok g' => g'
  | .error _ => g

/-- `Tree::leaf_p`: a game is a leaf when none of its legal-move successor
states is keyed in the tree (the `for`-with-early-return is an `any`). -/
def Tree.leaf_p (t : Tree) (g : Game) : Bool :=
  if g.is_over then true
  else ¬ g.legal_moves.any (fun mv => t.containsKey (stepUnwrap g mv).get_hash)

/-- The scan of `Tree::expand` over the leaf's legal moves: the first
successor state not yet keyed in the tree, or the leaf itself. -/
def expandGo (t : Tree) (leaf : Game) : List Move → Game
  | [] => leaf
  | mv :: rest =>
    let sim_game := stepUnwrap leaf mv
    if ¬ t.containsKey sim_game.get_hash then sim_game
    else expandGo t leaf rest

/-- `Tree::expand`. -/
def Tree.expand (t : Tree) (leaf : Game) : Game :=
  expandGo t leaf leaf.legal_moves

/-- The `result_value` computed at the top of `Tree::backpropagate`. -/
def resultValue (player : Color) (winner : Option Color) : ℚ :=
  match winner with
  | none => 1/2
  | some w => if w = player then 1 else 0

/-- One entry of `Tree::backpropagate`'s walk over the recorded stack. -/
def backpropStep (result_value : ℚ) (m : List (Nat × Node)) (hash : Nat) :
    List (Nat × Node) :=
  adjustOrInsert m hash
    (fun node => { visits := node.visits + 1, wins := node.wins + result_value })
    (Node.first_visit (result_value == 1))

/-- `Tree::backpropagate`: visit every recorded state in push order,
updating its node or inserting `Node::first_visit(result_value == 1.0)`. -/
def Tree.backpropagate (t : Tree) (player : Color) (winner : Option Color)
    (stack : List Game) : Tree :=
  let result_value := resultValue player winner
  { t with
    map := stack.foldl (fun m g => backpropStep result_value m g.get_hash) t.map }

/-- The `while` loop of `Tree::select`, parameterised by `chooser`, the
move returned by the source's `ucb1`.  `ucb1` computes `f64` UCB1 scores
with `ln`/`sqrt` and a random fallback, which a shallow embedding cannot
reproduce bit-for-bit; everything the claims below need is that it returns
*some* move (and on a state with exactly one legal move, every possible
`ucb1`/`random_move` outcome is that unique move).  Fuel replaces the
source's unbounded `while`; every theorem below holds for every fuel. -/
def selectGo (chooser : Game → Move) (t : Tree) :
    Nat → Game → List Game → Game × List Game
  | 0, g, stack => (g, stack)
  | fuel + 1, g, stack =>
    if ¬ g.is_over ∧ ¬ t.leaf_p g then
      selectGo chooser t fuel (stepUnwrap g (chooser g)) (stack ++ [g])
    else (g, stack)

/-- `Tree::select`. -/
def Tree.select (t : Tree) (chooser : Game → Move) (fuel : Nat) (g : Game) :
    Game × List Game :=
  selectGo chooser t fuel g []

/-- `Tree::search`: one MCTS iteration.  `chooser` abstracts the `f64`
`ucb1` policy and `simulate` abstracts the heuristic playout of
`Tree::simulate` (its result only feeds `backpropagate`); the structure —
select, expand, push the expanded child if it differs from the root,
simulate, backpropagate from the root's player, bump the counter — is the
source's. -/
def Tree.search (t : Tree) (chooser : Game → Move)
    (simulate : Game → Option Color) (fuel : Nat) (g : Game) : Tree :=
  if ¬ g.is_over then
    let sel := t.select chooser fuel g
    let leaf := sel.1
    let child := t.expand leaf
    let stack := if child ≠ g then sel.2 ++ [child] else sel.2
    let winner := simulate child
    let t' := t.backpropagate g.to_move winner stack
    { t' with search_iterations := t'.search_iterations + 1 }
  else t

/-- The set of distinct keys of a tree's hash-to-node mapping. -/
def Tree.keySet (t : Tree) : Finset Nat :=
  (t.map.map Prod.fst).toFinset

end Mcts

/-! ## Positional feature counters (`othello.rs`)

The constant tables are transcribed exactly as in the source: they hold
`Move::Move(i)` with the *cell index* `i` as the position payload. -/

/-- `othello.rs` `pub const CORNERS`. -/
def CORNERS : List Move := [.move 0, .move 7, .move 56, .move 63]

/-- `othello.rs` `pub const X_MOVES`. -/
def X_MOVES : List Move :=
  [.move 1, .move 6, .move 8, .move 9, .move 14, .move 15,
   .move 48, .move 49, .move 54, .move 55, .move 57, .move 62]

/-- `othello.rs` `pub const EDGES`. -/
def EDGES : List Move :=
  [.move 0, .move 1, .move 2, .move 3, .move 4, .move 5, .move 6, .move 7,
   .move 8, .move 16, .move 24, .move 32, .move 40, .move 48, .move 56,
   .move 15, .move 23, .move 31, .move 39, .move 47, .move 55,
   .move 57, .move 58, .move 59, .move 60, .move 61, .move 62, .move 63]

/-- `othello.rs` `const DIAGONALS`. -/
def DIAGONALS : List Move :=
  [.move 0, .move 9, .move 18, .move 27, .move 36, .move 45, .move 54, .move 63,
   .move 7, .move 14, .move 21, .move 28, .move 35, .move 42, .move 49, .move 56]

/-- `othello.rs` `const CENTER_4`. -/
def CENTER_4 : List Move := [.move 27, .move 28, .move 35, .move 36]

/-- `othello.rs` `const INNER_BOARD`. -/
def INNER_BOARD : List Move :=
  [.move 18, .move 19, .move 20, .move 21, .move 26, .move 27, .move 28, .move 29,
   .move 34, .move 35, .move 36, .move 37, .move 42, .move 43, .move 44, .move 45]

/-- The loop body shared by all six `*_held` counters: increment the black
count when `position & black_pieces > 0` and the white count when
`position & white_pieces > 1` (sic — transcribed from the source). -/
def heldCounts (cells : List Move) (black_pieces white_pieces : Nat) :
    Nat × Nat :=
  cells.foldl
    (fun counts mv =>
      match mv.get_position with
      | some position =>
        ((if position &&& black_pieces > 0 then counts.1 + 1 else counts.1),
         (if position &&& white_pieces > 1 then counts.2 + 1 else counts.2))
      | none => counts)
    (0, 0)

/-- `Game::num_corners_held`. -/
def Game.num_corners_held (g : Game) : Nat × Nat :=
  heldCounts CORNERS g.current_board.black g.current_board.white

/-- `Game::num_edges_held`. -/
def Game.num_edges_held (g : Game) : Nat × Nat :=
  heldCounts EDGES g.current_board.black g.current_board.white

/-- `Game::num_x_moves_held`. -/
def Game.num_x_moves_held (g : Game) : Nat × Nat :=
  heldCounts X_MOVES g.current_board.black g.current_board.white

/-- `Game::diagonals_held`. -/
def Game.diagonals_held (g : Game) : Nat × Nat :=
  heldCounts DIAGONALS g.current_board.black g.current_board.white

/-- `Game::center_4_held`. -/
def Game.center_4_held (g : Game) : Nat × Nat :=
  heldCounts CENTER_4 g.current_board.black g.current_board.white

/-- `Game::inner_board_held`. -/
def Game.inner_board_held (g : Game) : Nat × Nat :=
  heldCounts INNER_BOARD g.current_board.black g.current_board.white

/-! ## Referee move encoding (`drmecref.rs`) -/

/-- `drmecref.rs` `map_col`: column index to column letter. -/
def map_col (col : Nat) : String :=
  match col with
  | 0 => "a"
  | 1 => "b"
  | 2 => "c"
  | 3 => "d"
  | 4 => "e"
  | 5 => "f"
  | 6 => "g"
  | 7 => "h"
  | _ => ""

/-- `drmecref.rs` `unmap_col`: column letter back to its index (11 for an
unknown letter). -/
def unmap_col (col : String) : Nat :=
  match col with
  | "a" => 0
  | "b" => 1
  | "c" => 2
  | "d" => 3
  | "e" => 4
  | "f" => 5
  | "g" => 6
  | "h" => 7
  | _ => 11

/-- The column/row text produced by `DrMecRef::send_move` for a placement:
the mapped column letter and the 1-indexed row. -/
def encode_move (mv : Move) : Option (String × Nat) :=
  match mv.get_col, mv.get_row with
  | some col, some row => some (map_col col, row + 1)
  | _, _ => none

/-- The move reconstruction of `DrMecRef::receive_move`: unmap the column
letter, subtract 1 from the row, build via `Move::from_col_row`. -/
def decode_move (col : String) (row : Nat) : Except GameError Move :=
  Move.from_col_row (unmap_col col) (row - 1)

/-! ## Time budget and orchestrator (`lib.rs`, `config.rs`) -/

/-- `lib.rs` `const TIME_ALLOCATIONS`: the 70 per-turn `f64` fractions,
as exact rationals. -/
def TIME_ALLOCATIONS : List ℚ :=
  [15/1000, 15/1000, 15/1000, 15/1000, 25/1000, 25/1000, 25/1000, 25/1000,
   25/1000, 25/1000, 48/1000, 48/1000, 48/1000, 48/1000, 48/1000, 48/1000,
   50/1000, 51/1000, 52/1000, 53/1000, 44/1000, 45/1000, 49/1000, 49/1000,
   49/1000, 51/1000, 53/1000, 55/1000, 57/1000, 59/1000, 60/1000, 60/1000,
   61/1000, 62/1000, 63/1000, 64/1000, 65/1000, 65/1000, 65/1000, 65/1000,
   167/1000, 168/1000, 169/1000, 169/1000, 171/1000, 172/1000, 173/1000,
   175/1000, 180/1000, 180/1000, 181/1000, 187/1000, 196/1000, 199/1000,
   60/1000, 60/1000, 60/1000, 60/1000, 60/1000, 60/1000, 60/1000, 60/1000,
   60/1000, 60/1000, 60/1000, 60/1000, 60/1000, 60/1000, 60/1000, 60/1000]

/-- `Herb::dynamic_time_limit` as a pure function of the remaining time and
the turn number: returns `(time_for_turn, new_time_remaining)`. -/
def dynamic_time_limit (time_remaining : ℚ) (turn_num : Nat) : ℚ × ℚ :=
  let time_for_turn := time_remaining * TIME_ALLOCATIONS.getD turn_num 0
  (time_for_turn, time_remaining - time_for_turn)

/-- `config.rs` `struct Config`. -/
structure Config where
  max_time : ℚ
  log : Bool
  mcts_config : MctsConfig
deriving DecidableEq, Repr

/-- `Config::default`. -/
def Config.default : Config :=
  { max_time := 120, mcts_config := MctsConfig.default, log := true }

/-- `lib.rs` `struct Herb`. -/
structure Herb where
  config : Config
  mcts : Mcts.Tree
  search_iterations : Nat
  time_remaining : ℚ
deriving DecidableEq, Repr

/-- The per-worker loop body of `Herb::multi_threaded_search`
(`while Instant::now() <= time_limit { local_tree.search(local_game) }`):
the wall-clock deadline is not embeddable, so the number of completed
iterations is a parameter; the searched tree and game are the worker's own. -/
def workerLoop (chooser : Game → Move) (simulate : Game → Option Color)
    (fuel : Nat) (local_game : Game) : Nat → Mcts.Tree → Mcts.Tree
  | 0, local_tree => local_tree
  | n + 1, local_tree =>
    workerLoop chooser simulate fuel local_game n
      (local_tree.search chooser simulate fuel local_game)

/-- `Herb::multi_threaded_search`: one worker per thread, each starting
from `Tree::new()` (the source constructs the worker tree with the
*default* config, not `self.config.mcts_config`) and searching its own
copy of the root until its deadline; the per-worker iteration counts stand
in for the deadline. -/
def Herb.multi_threaded_search (self : Herb) (chooser : Game → Move)
    (simulate : Game → Option Color) (fuel : Nat) (num_trees : Nat)
    (iters : Nat → Nat) (game : Game) : List Mcts.Tree :=
  (List.range num_trees).map (fun index =>
    let local_tree := Mcts.Tree.new
    let local_game := game
    workerLoop chooser simulate fuel local_game (iters index) local_tree)

/-! ## Concrete scenario values used by the claim theorems -/

/-- Decidable equality for `Except` results (kernel-evaluable). -/
instance exceptDecidableEq {ε α : Type} [DecidableEq ε] [DecidableEq α] :
    DecidableEq (Except ε α) := fun a b =>
  match a, b with
  | .ok x, .ok y =>
    if h : x = y then .isTrue (by rw [h])
    else .isFalse (fun hh => h (Except.ok.inj hh))
  | .error x, .error y =>
    if h : x = y then .isTrue (by rw [h])
    else .isFalse (fun hh => h (Except.error.inj hh))
  | .ok _, .error _ => .isFalse (fun hh => Except.noConfusion hh)
  | .error _, .ok _ => .isFalse (fun hh => Except.noConfusion hh)

/-- A state that is not over but whose mover (black) has no legal move:
white on cell 0, black on cell 1, black to move.  White can still play
cell 2, so the game is not over. -/
def gNoMoves : Game :=
  { current_board := { black := 2, white := 1 }, current_player := .Black,
    turn := 0 }

/-- Root of the key-growth scenario: black on cells 0 and 57, white on
cells 1 and 56, black to move.  Black's only legal move is cell 2. -/
def gRoot : Game :=
  { current_board := { black := 2 ^ 0 ||| 2 ^ 57, white := 2 ^ 1 ||| 2 ^ 56 },
    current_player := .Black, turn := 0 }

/-- The unique successor of `gRoot` (black plays cell 2). -/
def gChild : Game := Mcts.stepUnwrap gRoot (Move.move 4)

/-- A tree whose only key is `gChild`'s hash, so that `gRoot` is not a
leaf while neither `gRoot`'s hash nor any grandchild's hash is present. -/
def treeGrow : Mcts.Tree :=
  { config := MctsConfig.default,
    map := [(gChild.get_hash, Node.first_visit true)],
    search_iterations := 1 }

/-- Stand-in for the source's `ucb1` selection policy in the key-growth
scenario.  `ucb1` folds `f64` UCB1 scores over the legal moves starting
from `random_move()`; on a state with exactly one legal move — the only
kind of state this scenario ever selects through — both `random_move` and
the fold return that unique legal move, for every floating-point and RNG
outcome, so the source policy coincides with taking the head of the
legal-move list there. -/
def chooserHead : Game → Move := fun g => g.legal_moves.headD Move.pass

/-- Stand-in for `Tree::simulate`'s recorded winner (its value only enters
the backpropagated statistics, never the key set). -/
def simTie : Game → Option Color := fun _ => none

/-- A board with white on cell/bit 1 only, used to refute the claim that
the feature counters' white counts are structurally zero. -/
def gWhiteBit1 : Game :=
  { current_board := { black := 0, white := 2 }, current_player := .Black,
    turn := 0 }

/-- Concrete trees exercising `Tree::merge`. -/
def mergeT1 : Mcts.Tree :=
  { config := MctsConfig.default, map := [(5, { visits := 2, wins := 1 })],
    search_iterations := 3 }

/-- Second concrete merge operand; key 5 is shared with `mergeT1`, key 7
is new. -/
def mergeT2 : Mcts.Tree :=
  { config := MctsConfig.default,
    map := [(5, { visits := 1, wins := 1/2 }), (7, { visits := 4, wins := 2 })],
    search_iterations := 10 }

/-- A concrete `Herb` used to witness the orchestrator claim. -/
def herbW : Herb :=
  { config := { max_time := 120, log := true,
                mcts_config := { exploration_factor := 3 } },
    mcts := Mcts.Tree.new, search_iterations := 0, time_remaining := 120 }

/-- Game states reachable from the initial position by successful
`play_next_turn` calls. -/
inductive Reachable : Game → Prop where
  | init : Reachable Game.new
  | step (g g' : Game) (mv : Move) : Reachable g →
      g.play_next_turn mv = .ok g' → Reachable g'

/-! ## Association-list lemmas for the tree map -/

namespace Mcts

theorem lookupNode_cons (e : Nat × Node) (m : List (Nat × Node)) (k : Nat) :
    lookupNode (e :: m) k = if e.1 = k then some e.2 else lookupNode m k := by
  by_cases h : e.1 = k <;> simp [lookupNode, List.find?_cons, h]

theorem lookupNode_mapUpdate_self (m : List (Nat × Node)) (k : Nat)
    (f : Node → Node) :
    lookupNode (m.map (fun e => if e.1 = k then (e.1, f e.2) else e)) k =
      (lookupNode m k).map f := by
  induction m with
  | nil => rfl
  | cons e rest ih =>
    by_cases h : e.1 = k
    · simp [lookupNode_cons, h]
    · simpa [lookupNode_cons, h] using ih

theorem lookupNode_mapUpdate_other (m : List (Nat × Node)) (k' : Nat)
    (f : Node → Node) (k : Nat) (h : k ≠ k') :
    lookupNode (m.map (fun e => if e.1 = k' then (e.1, f e.2) else e)) k =
      lookupNode m k := by
  induction m with
  | nil => rfl
  | cons e rest ih =>
    by_cases h1 : e.1 = k'
    · simp [lookupNode_cons, h1, Ne.symm h, ih]
    · simp [lookupNode_cons, h1, ih]

theorem lookupNode_adjust_self (m : List (Nat × Node)) (k : Nat)
    (f : Node → Node) (ins : Node) :
    lookupNode (adjustOrInsert m k f ins) k =
      some ((lookupNode m k).elim ins f) := by
  unfold adjustOrInsert
  cases h : lookupNode m k with
  | none => simp [lookupNode_cons]
  | some n => simp [lookupNode_mapUpdate_self, h]

theorem lookupNode_adjust_other (m : List (Nat × Node)) (k' : Nat)
    (f : Node → Node) (ins : Node) (k : Nat) (h : k ≠ k') :
    lookupNode (adjustOrInsert m k' f ins) k = lookupNode m k := by
  unfold adjustOrInsert
  cases h' : lookupNode m k' with
  | none => simp [lookupNode_cons, Ne.symm h]
  | some n => simp [lookupNode_mapUpdate_other m k' _ k h]

theorem foldl_backpropStep_lookup_not_mem (rv : ℚ) (gs : List Game) :
    ∀ (m : List (Nat × Node)) (k : Nat), k ∉ gs.map Game.get_hash →
    lookupNode (gs.foldl (fun m g => backpropStep rv m g.get_hash) m) k =
      lookupNode m k := by
  induction gs with
  | nil => intro m k _; rfl
  | cons s rest ih =>
    intro m k hk
    simp only [List.map_cons, List.mem_cons, not_or] at hk
    rw [List.foldl_cons, ih _ k hk.2]
    exact lookupNode_adjust_other m s.get_hash _ _ k hk.1

theorem foldl_backpropStep_lookup_mem (rv : ℚ) (gs : List Game) :
    ∀ (m : List (Nat × Node)) (g : Game), g ∈ gs →
    (gs.map Game.get_hash).Nodup →
    lookupNode (gs.foldl (fun m g => backpropStep rv m g.get_hash) m) g.get_hash =
      some ((lookupNode m g.get_hash).elim (Node.first_visit (rv == 1))
        (fun n => { visits := n.visits + 1, wins := n.wins + rv })) := by
  induction gs with
  | nil => intro m g h; exact absurd h (List.not_mem_nil g)
  | cons s rest ih =>
    intro m g hmem hnd
    simp only [List.map_cons, List.nodup_cons] at hnd
    rcases List.mem_cons.mp hmem with rfl | hrest
    · rw [List.foldl_cons,
        foldl_backpropStep_lookup_not_mem rv rest _ g.get_hash hnd.1]
      exact lookupNode_adjust_self m g.get_hash _ _
    · have hne : g.get_hash ≠ s.get_hash := by
        intro hh
        exact hnd.1 (hh ▸ List.mem_map_of_mem Game.get_hash hrest)
      rw [List.foldl_cons, ih _ g hrest hnd.2]
      simp only [backpropStep]
      rw [lookupNode_adjust_other m s.get_hash _ _ g.get_hash hne]

theorem foldl_mergeStep_lookup_not_mem (l : List (Nat × Node)) :
    ∀ (m : List (Nat × Node)) (k : Nat), k ∉ l.map Prod.fst →
    lookupNode (l.foldl mergeStep m) k = lookupNode m k := by
  induction l with
  | nil => intro m k _; rfl
  | cons e rest ih =>
    intro m k hk
    simp only [List.map_cons, List.mem_cons, not_or] at hk
    rw [List.foldl_cons, ih _ k hk.2]
    exact lookupNode_adjust_other m e.1 _ _ k hk.1

theorem foldl_mergeStep_lookup_mem (l : List (Nat × Node)) :
    ∀ (m : List (Nat × Node)) (k : Nat) (n2 : Node),
    (l.map Prod.fst).Nodup → lookupNode l k = some n2 →
    lookupNode (l.foldl mergeStep m) k =
      some ((lookupNode m k).elim n2
        (fun n1 => { visits := n1.visits + n2.visits,
                     wins := n1.wins + n2.wins })) := by
  induction l with
  | nil => intro m k n2 _ h; simp [lookupNode] at h
  | cons e rest ih =>
    intro m k n2 hnd hk
    simp only [List.map_cons, List.nodup_cons] at hnd
    rw [lookupNode_cons] at hk
    by_cases h : e.1 = k
    · rw [if_pos h] at hk
      injection hk with hk
      subst hk
      rw [List.foldl_cons, foldl_mergeStep_lookup_not_mem rest _ k (h ▸ hnd.1)]
      have := lookupNode_adjust_self m e.1 (fun node =>
        { visits := node.visits + e.2.visits, wins := node.wins + e.2.wins }) e.2
      rw [← h]
      exact this
    · rw [if_neg h] at hk
      rw [List.foldl_cons, ih _ k n2 hnd.2 hk]
      simp only [mergeStep]
      rw [lookupNode_adjust_other m e.1 _ _ k (fun hh => h hh.symm)]

end Mcts

/-- **C4** (corrected).  During backpropagation, a state on the recorded
path whose node already exists gets `visits + 1` and `wins + r` with
`r = 1` when the recorded winner is the root player, `r = 1/2` for a tie and
`r = 0` otherwise; but a state whose node does *not* yet exist is inserted
as `Node::first_visit(r == 1)`, whose `wins` is `1` for a win and `0`
otherwise — a tie on a fresh node records `0`, not `0.5`. -/
theorem claim_C4_backprop_update (t : Mcts.Tree) (player : Color)
    (winner : Option Color) (stack : List Game) (g : Game)
    (hmem : g ∈ stack) (hnd : (stack.map Game.get_hash).Nodup) :
    Mcts.lookupNode (t.backpropagate player winner stack).map g.get_hash =
      some ((Mcts.lookupNode t.map g.get_hash).elim
        (Node.first_visit (Mcts.resultValue player winner == 1))
        (fun n => { visits := n.visits + 1,
                    wins := n.wins + Mcts.resultValue player winner })) := by
  exact Mcts.foldl_backpropStep_lookup_mem (Mcts.resultValue player winner)
    stack t.map g hmem hnd

/-- Witness for C4: a win backpropagated into an empty tree stores
`{visits := 1, wins := 1}` at the root's hash. -/
theorem claim_C4_backprop_update_witness :
    Mcts.lookupNode
        ((Mcts.Tree.new).backpropagate .Black (some .Black) [Game.new]).map
        Game.new.get_hash = some { visits := 1, wins := 1 } := by
  have h := claim_C4_backprop_update Mcts.Tree.new .Black (some .Black)
    [Game.new] Game.new (by simp) (by simp)
  simpa [Mcts.Tree.new, Mcts.Tree.from_config, Mcts.lookupNode,
    Mcts.resultValue, Node.first_visit] using h

/-- **C4** counterexample: backpropagating a *tie* into a tree that does
not yet hold the state's node inserts `wins = 0`, while the claim requires
the wins increment to be `0.5` for a tie "including the case where the
Node did not previously exist". -/
theorem claim_C4_counterexample :
    ((Mcts.Tree.new).backpropagate .Black none [Game.new]).map =
      [(Game.new.get_hash, { visits := 1, wins := 0 })] ∧
    ¬ ((0 : ℚ) = 0 + 1/2) := by
  constructor
  · simp [Mcts.Tree.backpropagate, Mcts.backpropStep, Mcts.adjustOrInsert,
      Mcts.lookupNode, Mcts.Tree.new, Mcts.Tree.from_config, Mcts.resultValue,
      Node.first_visit]
  · norm_num

/-- **C5** (confirmed).  For every key `k` present in the donor tree, the
merged tree stores at `k` the component-wise sum of the recipient's node
(taken as `0` when absent) and the donor's node, and the iteration
counters are summed. -/
theorem claim_C5_merge_sums (t1 t2 : Mcts.Tree) (k : Nat) (n2 : Node)
    (hnd : (t2.map.map Prod.fst).Nodup)
    (hk : Mcts.lookupNode t2.map k = some n2) :
    Mcts.lookupNode (t1.merge t2).map k =
      some { visits := (Mcts.lookupNode t1.map k).elim 0 Node.visits + n2.visits,
             wins := (Mcts.lookupNode t1.map k).elim 0 Node.wins + n2.wins } ∧
    (t1.merge t2).search_iterations =
      t1.search_iterations + t2.search_iterations := by
  constructor
  · have h := Mcts.foldl_mergeStep_lookup_mem t2.map t1.map k n2 hnd hk
    show Mcts.lookupNode (t2.map.foldl Mcts.mergeStep t1.map) k = _
    rw [h]
    cases h1 : Mcts.lookupNode t1.map k with
    | none => simp
    | some n1 => simp
  · rfl

/-- Witness for C5 on concrete trees: the shared key 5 sums to
`{visits := 3, wins := 3/2}` and the counters sum to 13. -/
theorem claim_C5_merge_sums_witness :
    Mcts.lookupNode (mergeT1.merge mergeT2).map 5 =
      some { visits := 3, wins := 3/2 } ∧
    (mergeT1.merge mergeT2).search_iterations = 13 := by
  have h := claim_C5_merge_sums mergeT1 mergeT2 5 { visits := 1, wins := 1/2 }
    (by simp [mergeT2]) (by simp [mergeT2, Mcts.lookupNode])
  refine ⟨?_, h.2⟩
  rw [h.1]
  norm_num [mergeT1, Mcts.lookupNode]

/-- **C2** counterexample.  `gNoMoves` is not finished (white can still
play cell 2) and black, to move, has *no* legal moves; yet a placement
that is not in the (empty) legal set is accepted: `play_next_turn` skips
validation entirely when the mover's legal-move list is empty, returns
`Ok` and advances the turn and player, instead of returning `InvalidMove`
with the state unchanged. -/
theorem claim_C2_counterexample :
    gNoMoves.is_over = false ∧
    gNoMoves.legal_moves = [] ∧
    Move.move 4 ∉ gNoMoves.legal_moves ∧
    gNoMoves.play_next_turn (Move.move 4) =
      .ok { current_board := { black := 2, white := 1 },
            current_player := .White, turn := 1 } := by
  decide

/-- **C2** (corrected).  On a non-finished state *whose mover has at least
one legal move*, a placement outside the legal set fails with
`InvalidMove` (the source returns before any mutation, so the state is
unchanged); when the mover has no legal moves, any move — placements
included — is accepted as a forced pass: `Ok`, board unchanged, turn
incremented, player switched. -/
theorem claim_C2_invalid_placement (g : Game) (p : Nat)
    (hover : g.is_over = false) :
    (g.legal_moves ≠ [] → Move.move p ∉ g.legal_moves →
      g.play_next_turn (Move.move p) = .error .InvalidMove) ∧
    (g.legal_moves = [] →
      g.play_next_turn (Move.move p) = .ok g.advanceTurn) := by
  constructor
  · intro hne hmem
    simp [Game.play_next_turn, hover, List.isEmpty_iff, hne, hmem, Except.map]
  · intro hemp
    simp [Game.play_next_turn, hover, List.isEmpty_iff, hemp, Except.map]

/-- Witness for C2: rejecting an illegal placement on the initial
position. -/
theorem claim_C2_invalid_placement_witness :
    Game.new.play_next_turn (Move.move 1) = .error .InvalidMove :=
  (claim_C2_invalid_placement Game.new 1 (by decide)).1 (by decide) (by decide)

/-- **C7** (confirmed).  On the initial position `legal_moves` returns
exactly the four placements at cells 19, 26, 37, 44 — i.e. (col 3, row 2),
(col 2, row 3), (col 5, row 4), (col 4, row 5) — in ascending cell-index
order. -/
theorem claim_C7_initial_legal_moves :
    Game.new.legal_moves =
      [Move.move (2 ^ 19), Move.move (2 ^ 26),
       Move.move (2 ^ 37), Move.move (2 ^ 44)] ∧
    (Move.move (2 ^ 19)).get_col = some 3 ∧
    (Move.move (2 ^ 19)).get_row = some 2 ∧
    (Move.move (2 ^ 26)).get_col = some 2 ∧
    (Move.move (2 ^ 26)).get_row = some 3 ∧
    (Move.move (2 ^ 37)).get_col = some 5 ∧
    (Move.move (2 ^ 37)).get_row = some 4 ∧
    (Move.move (2 ^ 44)).get_col = some 4 ∧
    (Move.move (2 ^ 44)).get_row = some 5 := by
  decide

/-- **C8** (confirmed).  For every one of the 64 cells, sending the
placement move (column letter, 1-indexed row) and decoding that text back
(`unmap_col`, row − 1, `Move::from_col_row`) returns the original move. -/
theorem claim_C8_move_roundtrip : ∀ cell : Fin 64,
    (match encode_move (Move.move (2 ^ cell.val)) with
     | some p => decode_move p.1 p.2
     | none => Except.error GameError.InvalidMove) =
      .ok (Move.move (2 ^ cell.val)) := by
  decide

/-- Witness for C8 at cell 0. -/
theorem claim_C8_move_roundtrip_witness :
    (match encode_move (Move.move (2 ^ (0 : Fin 64).val)) with
     | some p => decode_move p.1 p.2
     | none => Except.error GameError.InvalidMove) =
      .ok (Move.move (2 ^ (0 : Fin 64).val)) :=
  claim_C8_move_roundtrip 0

theorem heldCounts_foldl_spec (black_pieces white_pieces : Nat)
    (cells : List Move) : ∀ acc : Nat × Nat,
    cells.foldl
      (fun counts mv =>
        match mv.get_position with
        | some position =>
          ((if position &&& black_pieces > 0 then counts.1 + 1 else counts.1),
           (if position &&& white_pieces > 1 then counts.2 + 1 else counts.2))
        | none => counts)
      acc =
      (acc.1 + cells.countP
         (fun mv => decide (0 < mv.get_position.getD 0 &&& black_pieces)),
       acc.2 + cells.countP
         (fun mv => decide (1 < mv.get_position.getD 0 &&& white_pieces))) := by
  induction cells with
  | nil => intro acc; simp
  | cons mv rest ih =>
    intro acc
    rw [List.foldl_cons, ih]
    cases mv with
    | pass => simp [Move.get_position, List.countP_cons]
    | move position =>
      simp only [Move.get_position, Option.getD_some, List.countP_cons]
      by_cases hb : 0 < position &&& black_pieces <;>
        by_cases hw : 1 < position &&& white_pieces <;>
          simp [hb, hw] <;> omega

theorem heldCounts_spec (cells : List Move) (black_pieces white_pieces : Nat) :
    heldCounts cells black_pieces white_pieces =
      (cells.countP
         (fun mv => decide (0 < mv.get_position.getD 0 &&& black_pieces)),
       cells.countP
         (fun mv => decide (1 < mv.get_position.getD 0 &&& white_pieces))) := by
  unfold heldCounts
  rw [heldCounts_foldl_spec]
  simp

/-- **C6** counterexample.  The claim says each counter's white-side count
is zero for *every* board; with white occupying only cell/bit 1 every one
of the six counters reports a nonzero white count (the constant tables
hold raw cell indices, several of which share bit 1 with the white mask
and pass the `> 1` test). -/
theorem claim_C6_counterexample :
    gWhiteBit1.num_corners_held = (0, 2) ∧
    gWhiteBit1.num_edges_held = (0, 14) ∧
    gWhiteBit1.num_x_moves_held = (0, 6) ∧
    gWhiteBit1.diagonals_held = (0, 8) ∧
    gWhiteBit1.center_4_held = (0, 2) ∧
    gWhiteBit1.inner_board_held = (0, 8) ∧
    (2 : Nat) ≠ 0 := by
  decide

/-- **C6** (corrected).  The white-side counts are *not* structurally
zero.  The membership test compares `position & white` against `1` with
`>`, and the table constants are raw cell indices rather than single-bit
masks, so each counter's white count equals the number of its table
entries whose payload ANDed with the white mask exceeds 1 — which is
positive for suitable boards (all six counters at once for white = bit 1). -/
theorem claim_C6_white_counts (g : Game) :
    (g.num_corners_held.2 = CORNERS.countP
        (fun mv => decide (1 < mv.get_position.getD 0 &&& g.current_board.white)) ∧
     g.num_edges_held.2 = EDGES.countP
        (fun mv => decide (1 < mv.get_position.getD 0 &&& g.current_board.white)) ∧
     g.num_x_moves_held.2 = X_MOVES.countP
        (fun mv => decide (1 < mv.get_position.getD 0 &&& g.current_board.white)) ∧
     g.diagonals_held.2 = DIAGONALS.countP
        (fun mv => decide (1 < mv.get_position.getD 0 &&& g.current_board.white)) ∧
     g.center_4_held.2 = CENTER_4.countP
        (fun mv => decide (1 < mv.get_position.getD 0 &&& g.current_board.white)) ∧
     g.inner_board_held.2 = INNER_BOARD.countP
        (fun mv => decide (1 < mv.get_position.getD 0 &&& g.current_board.white))) ∧
    ∃ game : Game,
      game.num_corners_held.2 ≠ 0 ∧ game.num_edges_held.2 ≠ 0 ∧
      game.num_x_moves_held.2 ≠ 0 ∧ game.diagonals_held.2 ≠ 0 ∧
      game.center_4_held.2 ≠ 0 ∧ game.inner_board_held.2 ≠ 0 := by
  refine ⟨⟨?_, ?_, ?_, ?_, ?_, ?_⟩, ⟨gWhiteBit1, by decide⟩⟩ <;>
    simp [Game.num_corners_held, Game.num_edges_held, Game.num_x_moves_held,
      Game.diagonals_held, Game.center_4_held, Game.inner_board_held,
      heldCounts_spec]

theorem timeAlloc_length : TIME_ALLOCATIONS.length = 70 := by
  simp [TIME_ALLOCATIONS]

theorem timeAlloc_bounds : ∀ q ∈ TIME_ALLOCATIONS, 0 < q ∧ q < 1 := by
  intro q hq
  fin_cases hq <;> norm_num

/-- **C9** (confirmed).  For every strictly positive remaining time and
every turn index below 70, the table entry lies strictly between 0 and 1,
the allocated `time_for_turn` is strictly below the remaining time, and
the remaining time after subtraction is non-negative. -/
theorem claim_C9_time_allocation (time_remaining : ℚ) (turn_num : Nat)
    (hpos : 0 < time_remaining) (hturn : turn_num < 70) :
    (0 < TIME_ALLOCATIONS.getD turn_num 0 ∧
     TIME_ALLOCATIONS.getD turn_num 0 < 1) ∧
    (dynamic_time_limit time_remaining turn_num).1 < time_remaining ∧
    0 ≤ (dynamic_time_limit time_remaining turn_num).2 := by
  have hlt : turn_num < TIME_ALLOCATIONS.length := by
    rw [timeAlloc_length]; exact hturn
  have hmem : TIME_ALLOCATIONS.getD turn_num 0 ∈ TIME_ALLOCATIONS := by
    rw [List.getD_eq_getElem TIME_ALLOCATIONS 0 hlt]
    exact List.getElem_mem hlt
  obtain ⟨h0, h1⟩ := timeAlloc_bounds _ hmem
  refine ⟨⟨h0, h1⟩, ?_, ?_⟩
  · show time_remaining * TIME_ALLOCATIONS.getD turn_num 0 < time_remaining
    exact mul_lt_of_lt_one_right hpos h1
  · show 0 ≤ time_remaining - time_remaining * TIME_ALLOCATIONS.getD turn_num 0
    exact sub_nonneg.mpr (mul_le_of_le_one_right hpos.le h1.le)

/-- Witness for C9 at remaining time 1 and turn 0. -/
theorem claim_C9_time_allocation_witness :
    (0 < TIME_ALLOCATIONS.getD 0 0 ∧ TIME_ALLOCATIONS.getD 0 0 < 1) ∧
    (dynamic_time_limit 1 0).1 < 1 ∧ 0 ≤ (dynamic_time_limit 1 0).2 :=
  claim_C9_time_allocation 1 0 one_pos (by norm_num)

theorem search_config_eq (t : Mcts.Tree) (chooser : Game → Move)
    (simulate : Game → Option Color) (fuel : Nat) (g : Game) :
    (t.search chooser simulate fuel g).config = t.config := by
  unfold Mcts.Tree.search
  split <;> rfl

theorem workerLoop_config_eq (chooser : Game → Move)
    (simulate : Game → Option Color) (fuel : Nat) (g : Game) :
    ∀ (n : Nat) (t : Mcts.Tree),
    (workerLoop chooser simulate fuel g n t).config = t.config := by
  intro n
  induction n with
  | zero => intro t; rfl
  | succ n ih =>
    intro t
    rw [workerLoop, ih, search_config_eq]

/-- **C10** (confirmed).  Every worker tree of `multi_threaded_search` is
constructed with `Tree::new()`, i.e. the *default* configuration: the
forest is entirely independent of the `Herb`'s loaded configuration, every
returned tree still carries the default config after all its searches, and
the default exploration factor is the `f64` value of `sqrt 2`
(`6369051672525773 / 2^52`).  The loaded exploration factor therefore
never reaches any UCB1 computation of the parallel search. -/
theorem claim_C10_worker_default_config (self1 self2 : Herb)
    (chooser : Game → Move) (simulate : Game → Option Color)
    (fuel num_trees : Nat) (iters : Nat → Nat) (game : Game) :
    self1.multi_threaded_search chooser simulate fuel num_trees iters game =
      self2.multi_threaded_search chooser simulate fuel num_trees iters game ∧
    (∀ t ∈ self1.multi_threaded_search chooser simulate fuel num_trees iters game,
        t.config = MctsConfig.default) ∧
    MctsConfig.default.exploration_factor = (6369051672525773 : ℚ) / 2 ^ 52 := by
  refine ⟨rfl, ?_, rfl⟩
  intro t ht
  simp only [Herb.multi_threaded_search, List.mem_map] at ht
  obtain ⟨i, -, rfl⟩ := ht
  rw [workerLoop_config_eq]
  rfl

/-- Witness for C10: a concrete `Herb` with a non-default exploration
factor still yields a worker tree with the default config. -/
theorem claim_C10_worker_default_config_witness :
    (Mcts.Tree.new).config = MctsConfig.default := by
  have h := (claim_C10_worker_default_config herbW
    { herbW with config := Config.default } chooserHead simTie 0 1
    (fun _ => 0) Game.new).2.1
  exact h Mcts.Tree.new (by simp [Herb.multi_threaded_search, workerLoop])

/-! ## C3: key growth of one `search` call -/

namespace Mcts

theorem keys_adjustOrInsert (m : List (Nat × Node)) (k : Nat)
    (f : Node → Node) (ins : Node) :
    (adjustOrInsert m k f ins).map Prod.fst =
      if (lookupNode m k).isSome then m.map Prod.fst
      else k :: m.map Prod.fst := by
  unfold adjustOrInsert
  cases h : lookupNode m k with
  | none => simp
  | some n =>
    simp only [h, Option.isSome_some, if_pos]
    rw [List.map_map]
    apply List.map_congr_left
    intro e _
    by_cases he : e.1 = k <;> simp [he]

theorem keySet_backpropStep_subset (rv : ℚ) (m : List (Nat × Node))
    (h : Nat) :
    (m.map Prod.fst).toFinset ⊆
      ((backpropStep rv m h).map Prod.fst).toFinset := by
  simp only [backpropStep, keys_adjustOrInsert]
  split
  · exact Finset.Subset.refl _
  · simp only [List.toFinset_cons]
    exact Finset.subset_insert _ _

theorem keySet_backpropStep_card (rv : ℚ) (m : List (Nat × Node))
    (h : Nat) :
    ((backpropStep rv m h).map Prod.fst).toFinset.card ≤
      (m.map Prod.fst).toFinset.card + 1 := by
  simp only [backpropStep, keys_adjustOrInsert]
  split
  · exact Nat.le_succ_of_le (Nat.le_refl _)
  · simp only [List.toFinset_cons]
    exact Finset.card_insert_le _ _

theorem keySet_backprop_foldl_subset (rv : ℚ) (gs : List Game) :
    ∀ m : List (Nat × Node),
    (m.map Prod.fst).toFinset ⊆
      (((gs.foldl (fun m g => backpropStep rv m g.get_hash) m)).map
        Prod.fst).toFinset := by
  induction gs with
  | nil => intro m; exact Finset.Subset.refl _
  | cons s rest ih =>
    intro m
    rw [List.foldl_cons]
    exact (keySet_backpropStep_subset rv m s.get_hash).trans (ih _)

theorem keySet_backprop_foldl_card (rv : ℚ) (gs : List Game) :
    ∀ m : List (Nat × Node),
    (((gs.foldl (fun m g => backpropStep rv m g.get_hash) m)).map
        Prod.fst).toFinset.card ≤
      (m.map Prod.fst).toFinset.card + gs.length := by
  induction gs with
  | nil => intro m; simp
  | cons s rest ih =>
    intro m
    rw [List.foldl_cons]
    calc (((rest.foldl (fun m g => backpropStep rv m g.get_hash)
            (backpropStep rv m s.get_hash))).map Prod.fst).toFinset.card
        ≤ ((backpropStep rv m s.get_hash).map Prod.fst).toFinset.card
            + rest.length := ih _
      _ ≤ (m.map Prod.fst).toFinset.card + 1 + rest.length :=
            Nat.add_le_add_right (keySet_backpropStep_card rv m s.get_hash) _
      _ = (m.map Prod.fst).toFinset.card + (s :: rest).length := by
            simp [List.length_cons]; omega

theorem selectGo_stack_length (chooser : Game → Move) (t : Tree) :
    ∀ (fuel : Nat) (g : Game) (stack : List Game),
    ((selectGo chooser t fuel g stack).2).length ≤ stack.length + fuel := by
  intro fuel
  induction fuel with
  | zero => intro g stack; simp [selectGo]
  | succ fuel ih =>
    intro g stack
    rw [selectGo]
    split
    · calc ((selectGo chooser t fuel (stepUnwrap g (chooser g))
              (stack ++ [g])).2).length
          ≤ (stack ++ [g]).length + fuel := ih _ _
        _ = stack.length + (fuel + 1) := by simp; omega
    · simp

end Mcts

/-- **C3** counterexample.  One `search` call on `treeGrow` (one key) from
`gRoot` inserts *two* new keys — the selected-but-unkeyed root and the
newly expanded grandchild — growing the key set from 1 to 3, while the
claim allows at most one new key per call. -/
theorem claim_C3_counterexample :
    (treeGrow.search chooserHead simTie 64 gRoot).keySet.card = 3 ∧
    treeGrow.keySet.card = 1 := by
  constructor
  · decide
  · decide

/-- **C3** (corrected).  One `search` call never removes a key, but it can
add more than one: it adds at most one key per state on the recorded
backpropagation path (each selected state plus the expanded child), which
the fuel bounds by `fuel + 1`.  This holds for every selection policy,
every simulation outcome and every fuel. -/
theorem claim_C3_search_keys (t : Mcts.Tree) (chooser : Game → Move)
    (simulate : Game → Option Color) (fuel : Nat) (g : Game) :
    t.keySet ⊆ (t.search chooser simulate fuel g).keySet ∧
    (t.search chooser simulate fuel g).keySet.card ≤
      t.keySet.card + (fuel + 1) := by
  unfold Mcts.Tree.search
  split
  · set rv := Mcts.resultValue g.to_move
      (simulate (t.expand (t.select chooser fuel g).1)) with hrv
    set stack := if t.expand (t.select chooser fuel g).1 ≠ g
      then (t.select chooser fuel g).2 ++ [t.expand (t.select chooser fuel g).1]
      else (t.select chooser fuel g).2 with hstack
    have hlen : stack.length ≤ fuel + 1 := by
      have hsel : ((t.select chooser fuel g).2).length ≤ fuel := by
        simpa [Mcts.Tree.select] using
          Mcts.selectGo_stack_length chooser t fuel g []
      rw [hstack]
      split
      · simp only [List.length_append, List.length_cons, List.length_nil]
        omega
      · exact hsel.trans (Nat.le_succ _)
    constructor
    · exact Mcts.keySet_backprop_foldl_subset _ stack t.map
    · calc ((stack.foldl (fun m g => Mcts.backpropStep _ m g.get_hash)
              t.map).map Prod.fst).toFinset.card
          ≤ (t.map.map Prod.fst).toFinset.card + stack.length :=
            Mcts.keySet_backprop_foldl_card _ stack t.map
        _ ≤ t.keySet.card + (fuel + 1) := Nat.add_le_add_left hlen _
  · exact ⟨Finset.Subset.refl _, Nat.le_add_right _ _⟩

/-- Witness for C3's corrected statement on the concrete growth scenario. -/
theorem claim_C3_search_keys_witness :
    treeGrow.keySet ⊆ (treeGrow.search chooserHead simTie 64 gRoot).keySet ∧
    (treeGrow.search chooserHead simTie 64 gRoot).keySet.card ≤
      treeGrow.keySet.card + 65 :=
  claim_C3_search_keys treeGrow chooserHead simTie 64 gRoot

/-! ## C1: the occupancy masks of every reachable board are disjoint -/

theorem two_pow_land_ne_zero_iff (i w : Nat) :
    (2 ^ i &&& w ≠ 0) ↔ w.testBit i := by
  constructor
  · intro h
    by_contra hbit
    apply h
    apply Nat.eq_of_testBit_eq
    intro j
    by_cases hj : j = i
    · subst hj; simp [Nat.testBit_and, Bool.eq_false_iff.mpr hbit]
    · simp [Nat.testBit_and, Nat.testBit_two_pow_of_ne (fun hh => hj hh.symm)]
  · intro hbit h
    have := congrArg (fun x => x.testBit i) h
    simp [Nat.testBit_and, Nat.testBit_two_pow_self, hbit] at this

theorem land_two_pow_ne_zero_iff (w i : Nat) :
    (w &&& 2 ^ i ≠ 0) ↔ w.testBit i := by
  rw [Nat.land_comm]
  exact two_pow_land_ne_zero_iff i w

theorem xor_land_eq_zero (own opp flip : Nat) (h1 : own &&& opp = 0)
    (h2 : flip &&& (own ||| opp) = flip) :
    (own ^^^ flip) &&& (opp ^^^ flip) = 0 := by
  apply Nat.eq_of_testBit_eq
  intro j
  have e1 := congrArg (fun x => x.testBit j) h1
  have e2 := congrArg (fun x => x.testBit j) h2
  simp only [Nat.testBit_and, Nat.testBit_or, Nat.zero_testBit] at e1 e2
  simp only [Nat.testBit_xor, Nat.testBit_and, Nat.zero_testBit]
  cases ha : own.testBit j <;> cases hb : opp.testBit j <;>
    cases hc : flip.testBit j <;> simp_all

theorem shl64_two_pow (i k : Nat) :
    shl64 (2 ^ i) k = if i + k < 64 then 2 ^ (i + k) else 0 := by
  unfold shl64 U64_MOD
  rw [Nat.shiftLeft_eq, ← pow_add]
  split
  · exact Nat.mod_eq_of_lt (Nat.pow_lt_pow_right Nat.one_lt_two (by omega))
  · have hdvd : (2 : Nat) ^ 64 ∣ 2 ^ (i + k) := pow_dvd_pow 2 (by omega)
    omega

theorem shiftRight_two_pow (i k : Nat) :
    (2 ^ i) >>> k = if k ≤ i then 2 ^ (i - k) else 0 := by
  rw [Nat.shiftRight_eq_div_pow]
  split
  · exact Nat.pow_div (by omega) (by omega)
  · exact Nat.div_eq_of_lt (Nat.pow_lt_pow_right Nat.one_lt_two (by omega))

theorem single_shl64 (mask k : Nat)
    (hm : mask = 0 ∨ ∃ i, i < 64 ∧ mask = 2 ^ i) :
    shl64 mask k = 0 ∨ ∃ i, i < 64 ∧ shl64 mask k = 2 ^ i := by
  rcases hm with rfl | ⟨i, hi, rfl⟩
  · left; simp [shl64, Nat.zero_shiftLeft]
  · rw [shl64_two_pow]
    split
    · exact .inr ⟨i + k, by omega, rfl⟩
    · exact .inl rfl

theorem single_shr (mask k : Nat)
    (hm : mask = 0 ∨ ∃ i, i < 64 ∧ mask = 2 ^ i) :
    mask >>> k = 0 ∨ ∃ i, i < 64 ∧ mask >>> k = 2 ^ i := by
  rcases hm with rfl | ⟨i, hi, rfl⟩
  · left; simp
  · rw [shiftRight_two_pow]
    split
    · exact .inr ⟨i - k, by omega, rfl⟩
    · exact .inl rfl

theorem flipStep_single (dir : SearchDirection) (mask mask' : Nat)
    (hm : mask = 0 ∨ ∃ i, i < 64 ∧ mask = 2 ^ i)
    (hs : flipStep dir mask = some mask') :
    mask' = 0 ∨ ∃ i, i < 64 ∧ mask' = 2 ^ i := by
  cases dir <;> simp only [flipStep] at hs
  case Down =>
    injection hs with hs; exact hs ▸ single_shl64 mask 8 hm
  case Up =>
    injection hs with hs; exact hs ▸ single_shr mask 8 hm
  all_goals
    split at hs
    · exact absurd hs (by simp)
    · injection hs with hs
      first
      | exact hs ▸ single_shl64 mask 1 hm
      | exact hs ▸ single_shl64 mask 7 hm
      | exact hs ▸ single_shl64 mask 9 hm
      | exact hs ▸ single_shr mask 1 hm
      | exact hs ▸ single_shr mask 7 hm
      | exact hs ▸ single_shr mask 9 hm

theorem flipLoop_disjoint (dir : SearchDirection) :
    ∀ (fuel own opp mask flip : Nat),
    own &&& opp = 0 →
    (mask = 0 ∨ ∃ i, i < 64 ∧ mask = 2 ^ i) →
    flip &&& (own ||| opp) = flip →
    (flipLoop dir fuel own opp mask flip).1 &&&
      (flipLoop dir fuel own opp mask flip).2 = 0 := by
  intro fuel
  induction fuel with
  | zero => intro own opp mask flip h1 _ _; exact h1
  | succ fuel ih =>
    intro own opp mask flip h1 hm hf
    rw [flipLoop]
    split
    · exact h1
    · rename_i mask' hs
      split
      · rename_i hopp
        have hm' : ∃ j, j < 64 ∧ mask' = 2 ^ j := by
          rcases flipStep_single dir mask mask' hm hs with rfl | h
          · exact absurd (by simp) hopp
          · exact h
        obtain ⟨j, hj, rfl⟩ := hm'
        have hoppj : opp.testBit j := (two_pow_land_ne_zero_iff j opp).mp hopp
        apply ih own opp _ _ h1 (.inr ⟨j, hj, rfl⟩)
        apply Nat.eq_of_testBit_eq
        intro b
        have e := congrArg (fun x => x.testBit b) hf
        simp only [Nat.testBit_and, Nat.testBit_or] at e ⊢
        by_cases hb : b = j
        · subst hb; simp [Nat.testBit_two_pow_self, hoppj]
        · simp only [Nat.testBit_two_pow_of_ne (fun hh => hb hh.symm),
            Bool.or_false]
          exact e
      · split
        · exact xor_land_eq_zero own opp flip h1 hf
        · exact h1

theorem flipDir_disjoint (pos own opp : Nat) (dir : SearchDirection)
    (h1 : own &&& opp = 0) (hp : pos = 0 ∨ ∃ i, i < 64 ∧ pos = 2 ^ i) :
    (flipDir pos own opp dir).1 &&& (flipDir pos own opp dir).2 = 0 :=
  flipLoop_disjoint dir 64 own opp pos 0 h1 hp (by simp)

theorem applyFlips_disjoint (pos own opp : Nat)
    (h1 : own &&& opp = 0) (hp : pos = 0 ∨ ∃ i, i < 64 ∧ pos = 2 ^ i) :
    (applyFlips pos own opp).1 &&& (applyFlips pos own opp).2 = 0 := by
  unfold applyFlips
  generalize APPLY_DIRECTIONS = dirs
  induction dirs generalizing own opp with
  | nil => exact h1
  | cons d rest ih =>
    rw [List.foldl_cons]
    exact ih _ _ (flipDir_disjoint pos own opp d h1 hp)

theorem lor_land_land_self (v e x : Nat) (h : v &&& e = v) :
    (v ||| (x &&& e)) &&& e = v ||| (x &&& e) := by
  apply Nat.eq_of_testBit_eq
  intro j
  have e1 := congrArg (fun y => y.testBit j) h
  simp only [Nat.testBit_and, Nat.testBit_or] at e1 ⊢
  cases hv : v.testBit j <;> cases he : e.testBit j <;>
    cases hx : x.testBit j <;> simp_all

theorem lmLoopShl_land_empty (mask off opp empty : Nat) :
    ∀ (fuel neighbors valid : Nat), valid &&& empty = valid →
    lmLoopShl mask off opp empty fuel neighbors valid &&& empty =
      lmLoopShl mask off opp empty fuel neighbors valid := by
  intro fuel
  induction fuel with
  | zero => intro neighbors valid h; exact h
  | succ fuel ih =>
    intro neighbors valid h
    rw [lmLoopShl]
    split
    · exact h
    · exact ih _ _ (lor_land_land_self valid empty _ h)

theorem lmLoopShr_land_empty (mask off opp empty : Nat) :
    ∀ (fuel neighbors valid : Nat), valid &&& empty = valid →
    lmLoopShr mask off opp empty fuel neighbors valid &&& empty =
      lmLoopShr mask off opp empty fuel neighbors valid := by
  intro fuel
  induction fuel with
  | zero => intro neighbors valid h; exact h
  | succ fuel ih =>
    intro neighbors valid h
    rw [lmLoopShr]
    split
    · exact h
    · exact ih _ _ (lor_land_land_self valid empty _ h)

theorem validMovesMask_land_empty (p o e : Nat) :
    validMovesMask p o e &&& e = validMovesMask p o e := by
  unfold validMovesMask
  have h : ∀ (l : List Nat) (v : Nat), v &&& e = v →
      (l.foldl (fun valid i =>
        lmLoopShr (DIRECTION_MASKS (i + 4)) (DIRECTION_OFFSETS i) o e 64
          (((p &&& DIRECTION_MASKS (i + 4)) >>> DIRECTION_OFFSETS i) &&& o)
          (lmLoopShl (DIRECTION_MASKS i) (DIRECTION_OFFSETS i) o e 64
            (shl64 (p &&& DIRECTION_MASKS i) (DIRECTION_OFFSETS i) &&& o)
            valid)) v) &&& e =
      l.foldl (fun valid i =>
        lmLoopShr (DIRECTION_MASKS (i + 4)) (DIRECTION_OFFSETS i) o e 64
          (((p &&& DIRECTION_MASKS (i + 4)) >>> DIRECTION_OFFSETS i) &&& o)
          (lmLoopShl (DIRECTION_MASKS i) (DIRECTION_OFFSETS i) o e 64
            (shl64 (p &&& DIRECTION_MASKS i) (DIRECTION_OFFSETS i) &&& o)
            valid)) v := by
    intro l
    induction l with
    | nil => intro v hv; exact hv
    | cons i rest ih =>
      intro v hv
      rw [List.foldl_cons]
      exact ih _ (lmLoopShr_land_empty _ _ o e 64 _ _
        (lmLoopShl_land_empty _ _ o e 64 _ _ hv))
  exact h _ 0 (by simp)

theorem countOnesAux_zero : ∀ fuel, countOnesAux fuel 0 = 0 := by
  intro fuel
  cases fuel <;> rfl

theorem countOnesAux_two_pow : ∀ (fuel s : Nat), s < fuel →
    countOnesAux fuel (2 ^ s) = 1 := by
  intro fuel
  induction fuel with
  | zero => intro s h; omega
  | succ fuel ih =>
    intro s h
    cases s with
    | zero =>
      rw [countOnesAux]
      norm_num [countOnesAux_zero]
    | succ s =>
      rw [countOnesAux]
      have h2 : (2 : Nat) ^ (s + 1) ≠ 0 := by positivity
      have h3 : (2 : Nat) ^ (s + 1) % 2 = 0 := by
        rw [pow_succ]; omega
      have h4 : (2 : Nat) ^ (s + 1) / 2 = 2 ^ s := by
        rw [pow_succ]; omega
      rw [if_neg h2, h3, h4, ih s (by omega)]

theorem count_ones_two_pow (s : Nat) (h : s < 64) : count_ones (2 ^ s) = 1 :=
  countOnesAux_two_pow 64 s h

theorem movesFromBitmask_mem (V : Nat) (mv : Move)
    (h : mv ∈ movesFromBitmask V) :
    ∃ s, s < 64 ∧ mv = Move.move (2 ^ s) ∧ V.testBit s = true := by
  unfold movesFromBitmask at h
  simp only [List.mem_flatMap, List.mem_filterMap, List.mem_range] at h
  obtain ⟨row, hrow, col, hcol, hmk⟩ := h
  have hslt : row * 8 + col < 64 := by omega
  have hpow : shl64 1 (row * 8 + col) = 2 ^ (row * 8 + col) := by
    unfold shl64 U64_MOD
    rw [Nat.shiftLeft_eq, one_mul]
    exact Nat.mod_eq_of_lt (Nat.pow_lt_pow_right Nat.one_lt_two hslt)
  rw [hpow] at hmk
  by_cases hne : V &&& 2 ^ (row * 8 + col) ≠ 0
  · rw [if_pos hne] at hmk
    have hnew : Move.new (2 ^ (row * 8 + col)) =
        .ok (Move.move (2 ^ (row * 8 + col))) := by
      unfold Move.new
      rw [count_ones_two_pow _ hslt]
      norm_num
    rw [hnew] at hmk
    injection hmk with hmk
    exact ⟨row * 8 + col, hslt, hmk.symm,
      (land_two_pow_ne_zero_iff V _).mp hne⟩
  · rw [if_neg hne] at hmk
    exact absurd hmk (by simp)

theorem legal_moves_mem_spec (g : Game) (mv : Move)
    (h : mv ∈ g.legal_moves) :
    ∃ s, s < 64 ∧ mv = Move.move (2 ^ s) ∧
      (g.current_board.black ||| g.current_board.white).testBit s = false := by
  have hmain : ∀ p o : Nat,
      mv ∈ movesFromBitmask (validMovesMask p o
        ((g.current_board.black ||| g.current_board.white) ^^^ U64_ALL_ONES)) →
      ∃ s, s < 64 ∧ mv = Move.move (2 ^ s) ∧
        (g.current_board.black ||| g.current_board.white).testBit s = false := by
    intro p o hmem
    obtain ⟨s, hs, hmv, hbit⟩ := movesFromBitmask_mem _ _ hmem
    refine ⟨s, hs, hmv, ?_⟩
    set occ := g.current_board.black ||| g.current_board.white with hocc
    have hVe := validMovesMask_land_empty p o (occ ^^^ U64_ALL_ONES)
    have e1 := congrArg (fun x => x.testBit s) hVe
    simp only [Nat.testBit_and] at e1
    rw [hbit] at e1
    have hempty : (occ ^^^ U64_ALL_ONES).testBit s = true := by
      cases he : (occ ^^^ U64_ALL_ONES).testBit s
      · rw [he] at e1; simp at e1
      · rfl
    have hall : U64_ALL_ONES.testBit s = true := by
      have : U64_ALL_ONES = 2 ^ 64 - 1 := rfl
      rw [this, Nat.testBit_two_pow_sub_one]
      simpa using hs
    rw [Nat.testBit_xor, hall] at hempty
    cases ho : occ.testBit s
    · rfl
    · rw [ho] at hempty; simp at hempty
  unfold Game.legal_moves at h
  cases hc : g.current_player <;> rw [hc] at h <;> exact hmain _ _ h

theorem lor_single_land_eq_zero (a b : Nat) (s : Nat) (hd : a &&& b = 0)
    (hb : b.testBit s = false) : (a ||| 2 ^ s) &&& b = 0 := by
  apply Nat.eq_of_testBit_eq
  intro j
  have e1 := congrArg (fun x => x.testBit j) hd
  simp only [Nat.testBit_and, Nat.zero_testBit] at e1
  simp only [Nat.testBit_and, Nat.testBit_or, Nat.zero_testBit]
  by_cases hj : j = s
  · subst hj; simp [hb]
  · simp only [Nat.testBit_two_pow_of_ne (fun hh => hj hh.symm), Bool.or_false]
    exact e1

theorem apply_move_disjoint (g : Game) (mv : Move)
    (hd : g.current_board.black &&& g.current_board.white = 0)
    (hm : mv ∈ g.legal_moves) :
    (g.apply_move mv).current_board.black &&&
      (g.apply_move mv).current_board.white = 0 := by
  obtain ⟨s, hs, rfl, hempty⟩ := legal_moves_mem_spec g mv hm
  have hocc : g.current_board.black.testBit s = false ∧
      g.current_board.white.testBit s = false := by
    have := congrArg (fun x => x) hempty
    rw [Nat.testBit_or] at hempty
    constructor
    · cases hb : g.current_board.black.testBit s
      · rfl
      · rw [hb] at hempty; simp at hempty
    · cases hw : g.current_board.white.testBit s
      · rfl
      · rw [hw] at hempty; simp at hempty
  have hsingle : (2 : Nat) ^ s = 0 ∨ ∃ i, i < 64 ∧ (2 : Nat) ^ s = 2 ^ i :=
    .inr ⟨s, hs, rfl⟩
  unfold Game.apply_move
  simp only [Move.get_position]
  cases hc : g.current_player
  case Black =>
    have h1 : (g.current_board.black ||| 2 ^ s) &&& g.current_board.white = 0 :=
      lor_single_land_eq_zero _ _ s hd hocc.2
    simpa using applyFlips_disjoint (2 ^ s) _ _ h1 hsingle
  case White =>
    have hd' : g.current_board.white &&& g.current_board.black = 0 := by
      rw [Nat.land_comm]; exact hd
    have h1 : (g.current_board.white ||| 2 ^ s) &&& g.current_board.black = 0 :=
      lor_single_land_eq_zero _ _ s hd' hocc.1
    have := applyFlips_disjoint (2 ^ s) _ _ h1 hsingle
    simpa [Nat.land_comm] using this

theorem apply_move_pass (g : Game) : g.apply_move Move.pass = g := by
  simp [Game.apply_move, Move.get_position]

theorem play_next_turn_disjoint (g g' : Game) (mv : Move)
    (hd : g.current_board.black &&& g.current_board.white = 0)
    (h : g.play_next_turn mv = .ok g') :
    g'.current_board.black &&& g'.current_board.white = 0 := by
  by_cases hover : g.is_over
  · simp [Game.play_next_turn, hover] at h
  · by_cases hleg : g.legal_moves = []
    · simp [Game.play_next_turn, hover, hleg, Except.map] at h
      rw [← h]
      exact hd
    · have hleg' : ¬ g.legal_moves.isEmpty := by simpa using hleg
      cases mv with
      | pass =>
        simp [Game.play_next_turn, hover, hleg', Except.map,
          apply_move_pass] at h
        rw [← h]
        exact hd
      | move p =>
        by_cases hmem : Move.move p ∈ g.legal_moves
        · simp [Game.play_next_turn, hover, hleg', hmem, Except.map] at h
          rw [← h]
          exact apply_move_disjoint g (Move.move p) hd hmem
        · simp [Game.play_next_turn, hover, hleg', hmem, Except.map] at h

/-- **C1** (confirmed).  For every game state reachable from the initial
position by successful `play_next_turn` calls, the black and white
occupancy masks share no set bit. -/
theorem claim_C1_reachable_disjoint (g : Game) (h : Reachable g) :
    g.current_board.black &&& g.current_board.white = 0 := by
  induction h with
  | init => decide
  | step g g' mv _ hstep ih => exact play_next_turn_disjoint g g' mv ih hstep

/-- Witness for C1 at the initial position. -/
theorem claim_C1_reachable_disjoint_witness :
    Game.new.current_board.black &&& Game.new.current_board.white = 0 :=
  claim_C1_reachable_disjoint Game.new Reachable.init
